import Mathlib

/-!
Shallow embedding of the `rmvm` repository (a small bytecode virtual machine
with an assembler) and a verification of the specification's claims against it.

The embedding follows the Rust sources:
  * `src/vm/archi.rs`   : instruction set, sizes, scalar types;
  * `src/vm/machine.rs` : the execution engine (`Machine`);
  * `src/vm/asm.rs`     : the tokenizer/assembler (`code_from_str`).

Modelling conventions:
  * `u16` / `i16` / `i32` values are `Nat` / `Int` with explicit range
    handling: `pc`/`inst_count` increments reduce modulo `2^16` (release-mode
    wrapping of `u16`), `i32` accumulator arithmetic wraps via `wrap32`
    (release-mode wrapping of `i32`), and the number parsers enforce the
    `u16`/`i16` ranges exactly as `str::parse` does.
  * A Rust panic (out-of-bounds slice index, `usize` subtraction underflow
    followed by an out-of-bounds index, integer division by zero, division
    overflow, or an explicit `todo!`) is modelled as the distinguished
    `crash` outcome, disjoint from the structured error returns.
  * `Result<T, E>` with `&mut self` is modelled by returning the final state
    in every non-crash outcome; the error outcome carries the machine exactly
    as the Rust caller still holds it after the failed call.
  * Loops are modelled by structural recursion on an explicit fuel counter so
    that every definition is executable by kernel reduction.  The inner
    tokenizer loops are always given fuel `source.length + 1`, which strictly
    exceeds the number of iterations either Rust loop can make (each
    iteration increments `char_index`, which stays below `source.length`),
    so their behaviour coincides with the Rust loops on every input.  The
    assembler's outer loop and the machine's run loop take caller-supplied
    fuel, and theorems quantify over it.
  * Rust's `HashMap<&str, Fix>` in the assembler is modelled as an
    association list in insertion order; the only operations the source uses
    are `get_mut`, `entry`-update and `insert` of a fresh key, which the
    association list reproduces exactly (the final `for (_, fix)` iteration
    order of a `HashMap` is unspecified; the model iterates in insertion
    order).
  * Source text is modelled as a `List Char`; the source format is
    line-oriented ASCII, on which Rust's byte indexing and the character
    indexing used here coincide.
-/

namespace RMVM

set_option maxRecDepth 10000

/-! ## archi.rs -/

def STACK_SIZE : Nat := 16000

def CALLSTACK_SIZE : Nat := 100

/-- `Instruction` from `src/vm/archi.rs`.  `LoadImmediate` carries an `i16`
(kept in range by the assembler's parser); the jump/call variants carry a
`u16` program address. -/
inductive Instruction where
  | Halt
  | Noop
  | LoadImmediate (n : Int)
  | Push
  | Pop
  | Dup
  | Swap
  | LoadTop
  | Over
  | Inc
  | Dec
  | Add
  | Sub
  | Mul
  | Div
  | Eq
  | Neq
  | Lt
  | Lte
  | Gt
  | Gte
  | Inv
  | Jmp (addr : Nat)
  | JumpIfZero (addr : Nat)
  | JumpIfNotZero (addr : Nat)
  | Call (addr : Nat)
  | Ret
deriving DecidableEq, Repr

/-! ## machine.rs -/

/-- `MachineErrorKind` from `src/vm/machine.rs` (note: the Rust enum has no
`DivisionByZero` variant). -/
inductive MachineErrorKind where
  | CallStackOverflow
  | CallStackUnderflow
  | StackOverflow
  | StackUnderflow
deriving DecidableEq, Repr

structure MachineError where
  kind : MachineErrorKind
  pc : Nat
deriving DecidableEq, Repr

/-- The machine state of `src/vm/machine.rs`.  The two fixed-size arrays are
lists whose length is `STACK_SIZE` resp. `CALLSTACK_SIZE` for every machine
the Rust type system can build. -/
structure Machine where
  pc : Nat
  sp : Nat
  fp : Nat
  acc : Int
  stack : List Int
  call_stack : List Nat
deriving DecidableEq, Repr

/-- Outcome of a fallible machine operation: the `Ok` payload, a structured
`MachineError` together with the machine as the caller still holds it, or a
Rust panic. -/
inductive MRes (α : Type) where
  | ok (a : α)
  | err (e : MachineError) (m : Machine)
  | crash
deriving DecidableEq, Repr

/-- `i32` two's-complement wrapping, the release-mode behaviour of the Rust
`+= / -= / *=` on `acc`. -/
def wrap32 (x : Int) : Int := (x + 2 ^ 31) % 2 ^ 32 - 2 ^ 31

/-- `u16` wrapping increment, the release-mode behaviour of `pc += 1` and
`inst_count += 1`. -/
def incWrap (x : Nat) : Nat := (x + 1) % 2 ^ 16

def Machine.new : Machine :=
  { pc := 0, sp := 0, fp := 0, acc := 0,
    stack := List.replicate STACK_SIZE 0,
    call_stack := List.replicate CALLSTACK_SIZE 0 }

/-- `Machine::push`: bounds check (note the source's `sp >= STACK_SIZE - 1`),
then `stack[sp] = value; sp += 1`. -/
def Machine.push (m : Machine) (value : Int) : MRes Machine :=
  if m.sp ≥ STACK_SIZE - 1 then
    .err { kind := .StackOverflow, pc := m.pc } m
  else
    match m.stack.get? m.sp with
    | some _ => .ok { m with stack := m.stack.set m.sp value, sp := m.sp + 1 }
    | none => .crash

/-- `Machine::pop`: underflow check, then `sp -= 1; stack[sp]`. -/
def Machine.pop (m : Machine) : MRes (Int × Machine) :=
  if m.sp = 0 then
    .err { kind := .StackUnderflow, pc := m.pc } m
  else
    match m.stack.get? (m.sp - 1) with
    | some v => .ok (v, { m with sp := m.sp - 1 })
    | none => .crash

/-- `Machine::push_frame` (note the source's `fp >= CALLSTACK_SIZE - 1`). -/
def Machine.push_frame (m : Machine) (addr : Nat) : MRes Machine :=
  if m.fp ≥ CALLSTACK_SIZE - 1 then
    .err { kind := .CallStackOverflow, pc := m.pc } m
  else
    match m.call_stack.get? m.fp with
    | some _ => .ok { m with call_stack := m.call_stack.set m.fp addr, fp := m.fp + 1 }
    | none => .crash

/-- `Machine::pop_frame`. -/
def Machine.pop_frame (m : Machine) : MRes (Nat × Machine) :=
  if m.fp = 0 then
    .err { kind := .CallStackUnderflow, pc := m.pc } m
  else
    match m.call_stack.get? (m.fp - 1) with
    | some a => .ok (a, { m with fp := m.fp - 1 })
    | none => .crash

/-- `Machine::execute_instruction`.  Branches that do not `return` early fall
through to `self.pc += 1`.  `Div` models the Rust panics on a zero divisor and
on `i32::MIN / -1`; `Swap`/`Over` model the panic caused by the unchecked
`self.sp - 1` when `sp = 0`; `Dup`/`LoadTop` read `stack[sp]` exactly as the
source does. -/
def Machine.execute_instruction (m : Machine) (instruction : Instruction) :
    MRes Machine :=
  match instruction with
  | .Halt => .ok { m with pc := incWrap m.pc }
  | .Noop => .ok { m with pc := incWrap m.pc }
  | .LoadImmediate n => .ok { m with acc := n, pc := incWrap m.pc }
  | .Push =>
    match m.push m.acc with
    | .ok m' => .ok { m' with pc := incWrap m'.pc }
    | .err e mm => .err e mm
    | .crash => .crash
  | .Pop =>
    match m.pop with
    | .ok (v, m') => .ok { m' with acc := v, pc := incWrap m'.pc }
    | .err e mm => .err e mm
    | .crash => .crash
  | .Dup =>
    match m.stack.get? m.sp with
    | some v =>
      match m.push v with
      | .ok m' => .ok { m' with pc := incWrap m'.pc }
      | .err e mm => .err e mm
      | .crash => .crash
    | none => .crash
  | .Swap =>
    match m.stack.get? m.sp with
    | some tmp =>
      if m.sp = 0 then .crash
      else
        match m.stack.get? (m.sp - 1) with
        | some below =>
          .ok { m with
                stack := (m.stack.set m.sp below).set (m.sp - 1) tmp,
                pc := incWrap m.pc }
        | none => .crash
    | none => .crash
  | .LoadTop =>
    match m.stack.get? m.sp with
    | some v => .ok { m with acc := v, pc := incWrap m.pc }
    | none => .crash
  | .Over =>
    if m.sp = 0 then .crash
    else
      match m.stack.get? (m.sp - 1) with
      | some v => .ok { m with acc := v, pc := incWrap m.pc }
      | none => .crash
  | .Inc => .ok { m with acc := wrap32 (m.acc + 1), pc := incWrap m.pc }
  | .Dec => .ok { m with acc := wrap32 (m.acc - 1), pc := incWrap m.pc }
  | .Add =>
    match m.pop with
    | .ok (v, m') => .ok { m' with acc := wrap32 (m'.acc + v), pc := incWrap m'.pc }
    | .err e mm => .err e mm
    | .crash => .crash
  | .Sub =>
    match m.pop with
    | .ok (v, m') => .ok { m' with acc := wrap32 (m'.acc - v), pc := incWrap m'.pc }
    | .err e mm => .err e mm
    | .crash => .crash
  | .Mul =>
    match m.pop with
    | .ok (v, m') => .ok { m' with acc := wrap32 (m'.acc * v), pc := incWrap m'.pc }
    | .err e mm => .err e mm
    | .crash => .crash
  | .Div =>
    match m.pop with
    | .ok (v, m') =>
      if v = 0 then .crash
      else if m'.acc = -(2 ^ 31) ∧ v = -1 then .crash
      else .ok { m' with acc := m'.acc.tdiv v, pc := incWrap m'.pc }
    | .err e mm => .err e mm
    | .crash => .crash
  | .Eq =>
    match m.pop with
    | .ok (v, m') =>
      .ok { m' with acc := if m'.acc = v then 1 else 0, pc := incWrap m'.pc }
    | .err e mm => .err e mm
    | .crash => .crash
  | .Neq =>
    match m.pop with
    | .ok (v, m') =>
      .ok { m' with acc := if m'.acc ≠ v then 1 else 0, pc := incWrap m'.pc }
    | .err e mm => .err e mm
    | .crash => .crash
  | .Lt =>
    match m.pop with
    | .ok (v, m') =>
      .ok { m' with acc := if m'.acc < v then 1 else 0, pc := incWrap m'.pc }
    | .err e mm => .err e mm
    | .crash => .crash
  | .Lte =>
    match m.pop with
    | .ok (v, m') =>
      .ok { m' with acc := if m'.acc ≤ v then 1 else 0, pc := incWrap m'.pc }
    | .err e mm => .err e mm
    | .crash => .crash
  | .Gt =>
    match m.pop with
    | .ok (v, m') =>
      .ok { m' with acc := if m'.acc > v then 1 else 0, pc := incWrap m'.pc }
    | .err e mm => .err e mm
    | .crash => .crash
  | .Gte =>
    match m.pop with
    | .ok (v, m') =>
      .ok { m' with acc := if m'.acc ≥ v then 1 else 0, pc := incWrap m'.pc }
    | .err e mm => .err e mm
    | .crash => .crash
  | .Inv => .ok { m with acc := if m.acc = 1 then 0 else 1, pc := incWrap m.pc }
  | .Jmp addr => .ok { m with pc := addr }
  | .JumpIfZero addr =>
    if m.acc = 0 then .ok { m with pc := addr }
    else .ok { m with pc := incWrap m.pc }
  | .JumpIfNotZero addr =>
    if m.acc ≠ 0 then .ok { m with pc := addr }
    else .ok { m with pc := incWrap m.pc }
  | .Call addr =>
    match m.push_frame m.pc with
    | .ok m' => .ok { m' with pc := addr }
    | .err e mm => .err e mm
    | .crash => .crash
  | .Ret =>
    match m.pop_frame with
    | .ok (a, m') => .ok { m' with pc := incWrap a }
    | .err e mm => .err e mm
    | .crash => .crash

/-- The `while` loop of `Machine::run`, with explicit fuel (`none` = fuel
exhausted, which never happens for the fuel used in concrete statements). -/
def runFuel : Nat → Machine → List Instruction → Option (MRes Machine)
  | 0, _, _ => none
  | fuel + 1, m, code =>
    match code.get? m.pc with
    | none => some (.ok m)
    | some i =>
      if i = .Halt then some (.ok m)
      else
        match m.execute_instruction i with
        | .ok m' => runFuel fuel m' code
        | .err e mm => some (.err e mm)
        | .crash => some .crash

/-- `Machine::run`: resets `pc` to 0, then iterates until `pc` leaves the
code or the fetched instruction is `Halt`. -/
def Machine.run (fuel : Nat) (m : Machine) (code : List Instruction) :
    Option (MRes Machine) :=
  runFuel fuel { m with pc := 0 } code

/-! ## asm.rs -/

/-- `AssemblyErrorKind` from `src/vm/asm.rs`.  (The Rust enum declares
`WrongArity` and `CodeTooBig` but the source never constructs either; there
is no `MissingLabelDefinition` variant.) -/
inductive AssemblyErrorKind where
  | UnknownInstruction (name : String)
  | WrongArity (expected got : Nat)
  | InvalidNumber (text : String)
  | CodeTooBig
deriving DecidableEq, Repr

structure AssemblyError where
  kind : AssemblyErrorKind
  line : Nat
deriving DecidableEq, Repr

/-- `Fix` from `src/vm/asm.rs`: the optional resolved address of a label and
the instruction slots waiting to be patched with it. -/
structure Fix where
  address : Option Nat
  to_fix : List Nat
deriving DecidableEq, Repr

/-- The label table: Rust's `HashMap<&str, Fix>` modelled as an association
list in insertion order. -/
abbrev Fixes := List (String × Fix)

def lookupFix : Fixes → String → Option Fix
  | [], _ => none
  | p :: rest, n => if p.1 = n then some p.2 else lookupFix rest n

/-- Replace the (first, and with the insertion discipline used here, only)
entry for a key; models `HashMap::get_mut` / `Entry::into_mut` updates. -/
def updateFix : Fixes → String → Fix → Fixes
  | [], _, _ => []
  | p :: rest, n, f => if p.1 = n then (n, f) :: rest else p :: updateFix rest n f

/-- `Tokenizer` from `src/vm/asm.rs`. -/
structure Tokenizer where
  char_index : Nat
  last_token : Nat
  line_num : Nat
deriving DecidableEq, Repr

/-- The loop of `Tokenizer::consume_comment`: advance `char_index` to the next
newline (or the end of the source).  Fuel `source.length + 1` always
suffices. -/
def ccGo : Nat → List Char → Nat → Nat
  | 0, _, ci => ci
  | fuel + 1, s, ci =>
    if ci < s.length then
      if s.getD ci '\n' ≠ '\n' then ccGo fuel s (ci + 1) else ci
    else ci

def consume_comment (s : List Char) (t : Tokenizer) : Tokenizer :=
  { t with char_index := ccGo (s.length + 1) s t.char_index }

/-- The loop of `Tokenizer::next_token`: advance `char_index` while it is
below `source.len() - 1` and either still behind `last_token` or on a
non-separator character.  Fuel `source.length + 1` always suffices. -/
def ntGo : Nat → List Char → Nat → Nat → Nat
  | 0, _, _, ci => ci
  | fuel + 1, s, lastTok, ci =>
    let c := s.getD ci ' '
    if ci + 1 < s.length ∧ (ci < lastTok ∨ (c ≠ ' ' ∧ c ≠ '\n')) then
      ntGo fuel s lastTok (ci + 1)
    else ci

/-- `Tokenizer::next_token`: returns the half-open index range of the token
and the updated tokenizer. -/
def next_token (s : List Char) (t : Tokenizer) : (Nat × Nat) × Tokenizer :=
  let ci' := ntGo (s.length + 1) s t.last_token t.char_index
  let tok := (t.last_token, ci')
  let lt' := ci' + 1
  if lt' ≥ s.length then
    (tok, { t with char_index := lt', last_token := lt' })
  else
    (tok, { t with char_index := ci', last_token := lt' })

/-- The characters of a token range (`&source[range]`). -/
def sliceTok (s : List Char) (r : Nat × Nat) : List Char :=
  (s.drop r.1).take (r.2 - r.1)

def digitVal : Char → Option Nat :=
  fun c => if c.isDigit then some (c.toNat - 48) else none

def digitsVal (cs : List Char) : Option Nat :=
  if cs.isEmpty then none
  else
    cs.foldl
      (fun acc c =>
        match acc, digitVal c with
        | some a, some d => some (a * 10 + d)
        | _, _ => none)
      (some 0)

/-- Rust `str::parse::<u16>()`: an optional leading `+`, then a nonempty
digit string whose value fits in `u16`. -/
def parseU16 (cs : List Char) : Option Nat :=
  let ds := if cs.head? = some '+' then cs.drop 1 else cs
  match digitsVal ds with
  | some v => if v ≤ 65535 then some v else none
  | none => none

/-- Rust `str::parse::<i16>()`: an optional sign, then a nonempty digit
string whose value fits in `i16`. -/
def parseI16 (cs : List Char) : Option Int :=
  match cs.head? with
  | some '-' =>
    (digitsVal (cs.drop 1)).bind fun v =>
      if v ≤ 32768 then some (-(v : Int)) else none
  | some '+' =>
    (digitsVal (cs.drop 1)).bind fun v =>
      if v ≤ 32767 then some (v : Int) else none
  | _ =>
    (digitsVal cs).bind fun v =>
      if v ≤ 32767 then some (v : Int) else none

/-- `parse_immediate` from `src/vm/asm.rs`. -/
def parse_immediate (operand : List Char) (linum : Nat) :
    Except AssemblyError Int :=
  match parseI16 operand with
  | some n => .ok n
  | none => .error { kind := .InvalidNumber (String.mk operand), line := linum }

/-- `Tokenizer::parse_address`: a `@label` reference registers a fixup (and
uses the already-resolved address, or placeholder `0`, as the operand); a
bare operand must parse as `u16`. -/
def parse_address (operand : List Char) (linum : Nat) (inst_count : Nat)
    (fixes_by_label : Fixes) : Except AssemblyError (Nat × Fixes) :=
  if operand.head? = some '@' then
    let label := String.mk (operand.drop 1)
    match lookupFix fixes_by_label label with
    | none =>
      .ok (0, fixes_by_label ++ [(label, { address := none, to_fix := [inst_count] })])
    | some fix =>
      .ok (fix.address.getD 0,
        updateFix fixes_by_label label { fix with to_fix := fix.to_fix ++ [inst_count] })
  else
    match parseU16 operand with
    | some v => .ok (v, fixes_by_label)
    | none =>
      .error { kind := .InvalidNumber (String.mk operand), line := linum }

/-- The label-definition arm of `code_from_str` (the `HashMap::entry`
match): bind the label to the current next-instruction address. -/
def bindLabel (fixes : Fixes) (label : String) (inst_count : Nat) : Fixes :=
  match lookupFix fixes label with
  | some f => updateFix fixes label { f with address := some inst_count }
  | none => fixes ++ [(label, { address := some inst_count, to_fix := [] })]

/-- Result of classifying one command token: skip the token (empty token or
label definition), emit an instruction, fail, or panic. -/
inductive ClassifyRes where
  | skip (t : Tokenizer) (fixes : Fixes)
  | inst (i : Instruction) (t : Tokenizer) (fixes : Fixes)
  | err (e : AssemblyError)
  | crash
deriving DecidableEq, Repr

/-- The shared shape of the `jmp`/`jz`/`jnz`/`call` arms of `code_from_str`:
read the operand token, then `parse_address`. -/
def addrArm (mk : Nat → Instruction) (s : List Char) (t : Tokenizer)
    (inst_count : Nat) (fixes : Fixes) : ClassifyRes :=
  let rt := next_token s t
  if rt.1.1 > rt.1.2 then .crash
  else
    match parse_address (sliceTok s rt.1) rt.2.line_num inst_count fixes with
    | .ok (a, fixes') => .inst (mk a) rt.2 fixes'
    | .error e => .err e

/-- The `load` arm of `code_from_str`. -/
def loadArm (s : List Char) (t : Tokenizer) (fixes : Fixes) : ClassifyRes :=
  let rt := next_token s t
  if rt.1.1 > rt.1.2 then .crash
  else
    match parse_immediate (sliceTok s rt.1) rt.2.line_num with
    | .ok n => .inst (.LoadImmediate n) rt.2 fixes
    | .error e => .err e

/-- The big `match cmd` of `code_from_str`, in source order: the empty token
`continue`s, mnemonics produce an instruction (consuming an operand token for
`load`/`jmp`/`jz`/`jnz`/`call`), a token ending in `:` binds a label and
`continue`s, anything else is `UnknownInstruction`. -/
def classifyCmd (s : List Char) (t : Tokenizer) (cmd : List Char)
    (inst_count : Nat) (fixes : Fixes) : ClassifyRes :=
  if String.mk cmd = "" then .skip t fixes
  else if String.mk cmd = "halt" then .inst .Halt t fixes
  else if String.mk cmd = "noop" then .inst .Noop t fixes
  else if String.mk cmd = "load" then loadArm s t fixes
  else if String.mk cmd = "push" then .inst .Push t fixes
  else if String.mk cmd = "pop" then .inst .Pop t fixes
  else if String.mk cmd = "dup" then .inst .Dup t fixes
  else if String.mk cmd = "swap" then .inst .Swap t fixes
  else if String.mk cmd = "ldt" then .inst .LoadTop t fixes
  else if String.mk cmd = "over" then .inst .Over t fixes
  else if String.mk cmd = "inc" then .inst .Inc t fixes
  else if String.mk cmd = "dec" then .inst .Dec t fixes
  else if String.mk cmd = "add" then .inst .Add t fixes
  else if String.mk cmd = "sub" then .inst .Sub t fixes
  else if String.mk cmd = "mul" then .inst .Mul t fixes
  else if String.mk cmd = "div" then .inst .Div t fixes
  else if String.mk cmd = "eq" then .inst .Eq t fixes
  else if String.mk cmd = "neq" then .inst .Neq t fixes
  else if String.mk cmd = "lt" then .inst .Lt t fixes
  else if String.mk cmd = "lte" then .inst .Lte t fixes
  else if String.mk cmd = "gt" then .inst .Gt t fixes
  else if String.mk cmd = "gte" then .inst .Gte t fixes
  else if String.mk cmd = "inv" then .inst .Inv t fixes
  else if String.mk cmd = "jmp" then addrArm .Jmp s t inst_count fixes
  else if String.mk cmd = "jz" then addrArm .JumpIfZero s t inst_count fixes
  else if String.mk cmd = "jnz" then addrArm .JumpIfNotZero s t inst_count fixes
  else if String.mk cmd = "call" then addrArm .Call s t inst_count fixes
  else if String.mk cmd = "ret" then .inst .Ret t fixes
  else if cmd ≠ [] ∧ cmd.getLast? = some ':' then
    .skip t (bindLabel fixes (String.mk cmd.dropLast) inst_count)
  else .err { kind := .UnknownInstruction (String.mk cmd), line := t.line_num }

/-- The assembler's mutable state during the scan of `code_from_str`. -/
structure AsmSt where
  t : Tokenizer
  inst_count : Nat
  fixes : Fixes
  dst : List Instruction
deriving DecidableEq, Repr

inductive ScanRes where
  | ok (st : AsmSt)
  | err (e : AssemblyError)
  | crash
deriving DecidableEq, Repr

/-- The main `while tokenizer.char_index < source.len()` loop of
`code_from_str`, one fuel unit per iteration.  A `;` at the cursor skips to
the end of the line; a separator at the cursor reads and classifies the next
token (a successful instruction write is bounds-checked exactly where Rust's
`dst[inst_count as usize] = ...` indexing would panic); any other character
only advances the cursor. -/
def scan (s : List Char) : Nat → AsmSt → Option ScanRes
  | 0, _ => none
  | fuel + 1, st =>
    if h : st.t.char_index < s.length then
      if s.get ⟨st.t.char_index, h⟩ = ';' then
        scan s fuel { st with t := consume_comment s st.t }
      else if s.get ⟨st.t.char_index, h⟩ = ' ' ∨ s.get ⟨st.t.char_index, h⟩ = '\n' then
        let rt := next_token s st.t
        if rt.1.1 > rt.1.2 then some .crash
        else
          match classifyCmd s rt.2 (sliceTok s rt.1) st.inst_count st.fixes with
          | .skip t2 fixes2 => scan s fuel { st with t := t2, fixes := fixes2 }
          | .inst i t2 fixes2 =>
            if st.inst_count < st.dst.length then
              scan s fuel
                { t := { t2 with line_num := t2.line_num + 1 },
                  inst_count := incWrap st.inst_count,
                  fixes := fixes2,
                  dst := st.dst.set st.inst_count i }
            else some .crash
          | .err e => some (.err e)
          | .crash => some .crash
      else
        scan s fuel { st with t := { st.t with char_index := st.t.char_index + 1 } }
    else some (.ok st)

/-- One fixup patch (`match dst[addr] { ... }` in the resolution loop):
`none` models the panics (index out of range, or the `todo!` for a
non-address-bearing instruction). -/
def patchSlot (dst : List Instruction) (slot a : Nat) : Option (List Instruction) :=
  match dst.get? slot with
  | some (.Jmp _) => some (dst.set slot (.Jmp a))
  | some (.JumpIfZero _) => some (dst.set slot (.JumpIfZero a))
  | some (.JumpIfNotZero _) => some (dst.set slot (.JumpIfNotZero a))
  | some (.Call _) => some (dst.set slot (.Call a))
  | some _ => none
  | none => none

/-- The inner `for to_fix in fix.to_fix` loop of the resolution pass. -/
def patchSlots (dst : List Instruction) (a : Nat) :
    List Nat → Option (List Instruction)
  | [] => some dst
  | slot :: rest =>
    match patchSlot dst slot a with
    | some dst' => patchSlots dst' a rest
    | none => none

/-- The final `for (_, fix) in fixes_by_label` loop of `code_from_str`:
`none` models the `todo!` panic on a label that was referenced but never
defined, and the panics inside `patchSlot`. -/
def resolveFixes : Fixes → List Instruction → Option (List Instruction)
  | [], dst => some dst
  | (_, fix) :: rest, dst =>
    match fix.address with
    | none => none
    | some a =>
      match patchSlots dst a fix.to_fix with
      | some dst' => resolveFixes rest dst'
      | none => none

inductive AsmRes where
  | ok (inst_count : Nat) (dst : List Instruction)
  | err (e : AssemblyError)
  | crash
deriving DecidableEq, Repr

/-- `code_from_str` from `src/vm/asm.rs`: the scan over the source followed
by the fixup-resolution pass.  `dst` is the caller's pre-filled destination
buffer.  `none` = scan fuel exhausted (never the case for the fuels used in
concrete statements; universal theorems quantify over `fuel`). -/
def code_from_str (fuel : Nat) (src : String) (dst : List Instruction) :
    Option AsmRes :=
  match scan src.toList fuel
      { t := { char_index := 0, last_token := 0, line_num := 0 },
        inst_count := 0, fixes := [], dst := dst } with
  | none => none
  | some (.err e) => some (.err e)
  | some .crash => some .crash
  | some (.ok st) =>
    match resolveFixes st.fixes st.dst with
    | none => some .crash
    | some dst' => some (.ok st.inst_count dst')

/-! ## Helpers for stating concrete end-to-end results -/

/-- Project a finished run to `(acc, sp, pc)`; `none` when the run errored,
crashed, or ran out of fuel. -/
def runOutput : Option (MRes Machine) → Option (Int × Nat × Nat)
  | some (.ok m) => some (m.acc, m.sp, m.pc)
  | _ => none

/-- Assemble `src` into a `Halt`-prefilled buffer of capacity `cap` (as
`main.rs` does) and run a fresh machine on the assembled buffer. -/
def asmRun (fuelA fuelR : Nat) (src : String) (cap : Nat) :
    Option (MRes Machine) :=
  match code_from_str fuelA src (List.replicate cap .Halt) with
  | some (.ok _ dst) => Machine.run fuelR Machine.new dst
  | _ => none

/-- Assemble `src` and return the instruction count and patched buffer. -/
def asmCode (fuelA : Nat) (src : String) (cap : Nat) :
    Option (Nat × List Instruction) :=
  match code_from_str fuelA src (List.replicate cap .Halt) with
  | some (.ok c dst) => some (c, dst)
  | _ => none

/-! ## Claim theorems -/

/-- C1, counterexample.  The claim asserts that running the assembled program
`load 5 / push / load 0 / div / halt` fails with a `DivisionByZero` runtime
error.  In fact `MachineErrorKind` has no `DivisionByZero` variant at all,
and this program divides `acc = 0` by the popped value `5` (the accumulator
is the left operand), so the run completes normally with `acc = 0`, `sp = 0`
and `pc = 4` (the `div` instruction is at address 3, `halt` at 4): the run
returns `ok`, not any error. -/
theorem div_example_halts_normally :
    runOutput (asmRun 200 50 "load 5\npush\nload 0\ndiv\nhalt\n" 8)
      = some (0, 0, 4) := by
  rfl

/-- C1, amended.  `Div` pops one value and divides the accumulator (left
operand) by it with truncating division; a popped divisor of zero makes the
Rust `/=` panic (modelled `crash`) — there is no `DivisionByZero` error —
and the spec's example program `load 5 / push / load 0 / div / halt`
completes normally with `acc = 0`. -/
theorem div_semantics_amended :
    (∀ (m m' : Machine) (v : Int), m.pop = .ok (v, m') → v = 0 →
      m.execute_instruction .Div = .crash) ∧
    (∀ (m m' : Machine) (v : Int), m.pop = .ok (v, m') → v ≠ 0 →
      ¬(m'.acc = -(2 ^ 31) ∧ v = -1) →
      m.execute_instruction .Div
        = .ok { m' with acc := m'.acc.tdiv v, pc := incWrap m'.pc }) ∧
    runOutput (asmRun 200 50 "load 5\npush\nload 0\ndiv\nhalt\n" 8)
      = some (0, 0, 4) := by
  refine ⟨?_, ?_, by rfl⟩
  · intro m m' v hp hv
    simp [Machine.execute_instruction, hp, hv]
  · intro m m' v hp hv hov
    simp only [Machine.execute_instruction, hp]
    rw [if_neg hv, if_neg hov]

/-- C1, witness for the amended theorem: on a machine whose stack top is the
value `0`, `Div` crashes (divisor zero), instantiating the first conjunct. -/
theorem div_semantics_amended_witness :
    Machine.execute_instruction { Machine.new with sp := 1 } .Div = .crash :=
  div_semantics_amended.1 { Machine.new with sp := 1 } Machine.new 0 (by rfl) rfl

/-- C2.  The claim says that a label referenced but never defined yields a
structured `MissingLabelDefinition` error and never an unconditional abort.
`AssemblyErrorKind` has no such variant and the resolution pass hits
`todo!("handle error missing label definition")` — a panic (modelled
`crash`) — so the code aborts instead of returning an error.  Evaluating the
assembler at the failing input `jmp @nowhere\nhalt\n`: -/
theorem missing_label_definition_panics :
    code_from_str 200 "jmp @nowhere\nhalt\n" (List.replicate 8 .Halt)
      = some .crash := by
  rfl

/-- C4.  The claim says a line whose first non-whitespace character is `;`
is skipped and never causes an assembly error.  In fact `consume_comment`
advances `char_index` past the comment but never moves `last_token`, so the
comment's characters are folded into the next token and reported as
`UnknownInstruction`; the first conjunct evaluates the assembler on a
comment-first program.  (Blank lines, by contrast, are skipped correctly:
second conjunct.) -/
theorem comment_line_is_error :
    code_from_str 200 "; hello\nhalt\n" (List.replicate 4 .Halt)
      = some (.err { kind := .UnknownInstruction "; hello", line := 0 }) ∧
    code_from_str 200 "noop\n\n\nhalt\n" (List.replicate 4 .Halt)
      = some (.ok 2 [.Noop, .Halt, .Halt, .Halt]) := by
  exact ⟨rfl, rfl⟩

/-- C5.  The claim says the assembler checks remaining capacity before every
write and reports `CodeTooBig` when the program does not fit.  In fact
`code_from_str` never constructs `CodeTooBig` (the variant is dead) and
writes through `dst[inst_count as usize]` with no capacity check, so
exceeding the buffer is an index-out-of-bounds panic (modelled `crash`):
assembling two instructions into a one-slot buffer crashes. -/
theorem capacity_overflow_panics :
    code_from_str 200 "noop\nnoop\n" [.Halt] = some .crash := by
  rfl

/-- C6.  The claim says every stack access of every instruction, including
`Swap` and `Over` at `sp = 0`, is bounds-checked and reported as a
`MachineError`, never performed as an unchecked access or panic.  In fact
`Swap` and `Over` read `stack[sp - 1]` with no check: at `sp = 0` the
`usize` subtraction underflows and the access panics (modelled `crash`) on a
fresh machine. -/
theorem swap_over_empty_stack_panic :
    Machine.execute_instruction Machine.new .Swap = .crash ∧
    Machine.execute_instruction Machine.new .Over = .crash := by
  exact ⟨rfl, rfl⟩

/-- C7, counterexample.  The claim says `Push` fails with `StackOverflow` if
and only if `sp = STACK_SIZE = 16000`, and writes for every `sp < 16000`.
The source's guard is `sp >= STACK_SIZE - 1`, so at `sp = 15999 < 16000` the
push already fails. -/
theorem push_overflow_off_by_one :
    Machine.execute_instruction { Machine.new with sp := STACK_SIZE - 1 } .Push
      = .err { kind := .StackOverflow, pc := 0 }
          { Machine.new with sp := STACK_SIZE - 1 } ∧
    STACK_SIZE - 1 < STACK_SIZE := by
  exact ⟨rfl, by decide⟩

/-- C7, amended.  `Push` fails with `StackOverflow` if and only if
`sp ≥ STACK_SIZE - 1 = 15999` (one slot below the claimed capacity), and for
`sp < 15999` writes the accumulator and advances `sp`; likewise `Call`'s
frame push fails with `CallStackOverflow` if and only if
`fp ≥ CALLSTACK_SIZE - 1 = 99`, so recursion overflows at nesting depth 99,
one frame short of the declared capacity 100. -/
theorem push_call_overflow_amended :
    ∀ m : Machine, m.stack.length = STACK_SIZE →
      m.call_stack.length = CALLSTACK_SIZE →
      (m.sp ≥ STACK_SIZE - 1 →
        m.execute_instruction .Push
          = .err { kind := .StackOverflow, pc := m.pc } m) ∧
      (m.sp < STACK_SIZE - 1 →
        m.execute_instruction .Push
          = .ok { m with stack := m.stack.set m.sp m.acc, sp := m.sp + 1,
                         pc := incWrap m.pc }) ∧
      (∀ a, m.fp ≥ CALLSTACK_SIZE - 1 →
        m.execute_instruction (.Call a)
          = .err { kind := .CallStackOverflow, pc := m.pc } m) ∧
      (∀ a, m.fp < CALLSTACK_SIZE - 1 →
        m.execute_instruction (.Call a)
          = .ok { m with call_stack := m.call_stack.set m.fp m.pc,
                         fp := m.fp + 1, pc := a }) := by
  intro m hs hc
  refine ⟨?_, ?_, ?_, ?_⟩
  · intro h
    simp [Machine.execute_instruction, Machine.push, h]
  · intro h
    have hlen : m.sp < m.stack.length := by omega
    simp [Machine.execute_instruction, Machine.push, Nat.not_le.mpr h, hlen]
  · intro a h
    simp [Machine.execute_instruction, Machine.push_frame, h]
  · intro a h
    have hlen : m.fp < m.call_stack.length := by omega
    simp [Machine.execute_instruction, Machine.push_frame, Nat.not_le.mpr h, hlen]

/-- C7, witness for the amended theorem: a fresh machine (`sp = 0 < 15999`)
pushes successfully. -/
theorem push_call_overflow_amended_witness :
    Machine.execute_instruction Machine.new .Push
      = .ok { Machine.new with
              stack := Machine.new.stack.set Machine.new.sp Machine.new.acc,
              sp := Machine.new.sp + 1, pc := incWrap Machine.new.pc } :=
  (push_call_overflow_amended Machine.new (by simp [Machine.new])
    (by simp [Machine.new])).2.1 (by decide)

/-- C8.  `Call(addr)` pushes the call instruction's own `pc` onto the call
stack and jumps to `addr`; any later `Ret` that finds that saved frame pops
it back into `pc` and then falls through to the engine's `pc += 1`, so
execution resumes at `pc + 1` — the instruction immediately after the call —
which is never the call instruction itself. -/
theorem call_ret_roundtrip :
    ∀ (m : Machine) (a : Nat), m.fp < CALLSTACK_SIZE - 1 →
      m.fp < m.call_stack.length →
      m.execute_instruction (.Call a)
        = .ok { m with call_stack := m.call_stack.set m.fp m.pc,
                       fp := m.fp + 1, pc := a } ∧
      (m.call_stack.set m.fp m.pc)[m.fp]? = some m.pc ∧
      (∀ m2 : Machine, m2.fp = m.fp + 1 → m2.call_stack[m.fp]? = some m.pc →
        m2.execute_instruction .Ret
          = .ok { m2 with fp := m.fp, pc := incWrap m.pc } ∧
        incWrap m.pc ≠ m.pc) := by
  intro m a hroom hlen
  refine ⟨?_, ?_, ?_⟩
  · simp [Machine.execute_instruction, Machine.push_frame,
      Nat.not_le.mpr hroom, hlen]
  · exact List.getElem?_set_eq_of_lt _ hlen
  · intro m2 hfp hget
    constructor
    · simp [Machine.execute_instruction, Machine.pop_frame, hfp, hget]
    · simp only [incWrap]
      omega

/-- C8, witness: a fresh machine calls address 2 and the matching `Ret`
resumes at `pc = 1`, one past the call site; additionally the whole
three-instruction program `[Call 2, Halt, Ret]` runs to a normal halt at
`pc = 1` (no infinite call loop). -/
theorem call_ret_roundtrip_witness :
    Machine.execute_instruction Machine.new (.Call 2)
      = .ok { Machine.new with
              call_stack := Machine.new.call_stack.set Machine.new.fp Machine.new.pc,
              fp := Machine.new.fp + 1, pc := 2 } ∧
    runOutput (Machine.run 50 Machine.new [.Call 2, .Halt, .Ret])
      = some (0, 0, 1) := by
  refine ⟨(call_ret_roundtrip Machine.new 2 (by decide)
    (by simp [Machine.new, CALLSTACK_SIZE])).1, ?_⟩
  rfl

/-- C9, counterexample.  The claim says
`load 5 / push / load 3 / push / add / halt` ends with `acc = 8`.  The
program pushes 5, pushes 3, and `add` then pops `3` and adds it to
`acc = 3`, giving `acc = 6 ≠ 8` (the spec's example double-pushes; `5` is
still on the stack, `sp = 1`). -/
theorem add_example_acc_is_6 :
    runOutput (asmRun 200 50 "load 5\npush\nload 3\npush\nadd\nhalt\n" 8)
      = some (6, 1, 5) ∧ (6 : Int) ≠ 8 := by
  exact ⟨rfl, by decide⟩

/-- C9, amended.  The program assembles to
`[Load 5, Push, Load 3, Push, Add, Halt, ...]` and terminates normally with
`acc = 6`, `sp = 1` and `pc = 5`, the address of the `halt` instruction. -/
theorem add_example_final_state :
    asmCode 200 "load 5\npush\nload 3\npush\nadd\nhalt\n" 8
      = some (6, [.LoadImmediate 5, .Push, .LoadImmediate 3, .Push, .Add,
                  .Halt, .Halt, .Halt]) ∧
    runOutput (asmRun 200 50 "load 5\npush\nload 3\npush\nadd\nhalt\n" 8)
      = some (6, 1, 5) := by
  exact ⟨rfl, rfl⟩

/-- `Machine::push` mutates nothing when it returns an error, and the error
carries the current `pc`. -/
theorem Machine.push_err_eq {m mm : Machine} {v : Int} {e : MachineError}
    (h : m.push v = .err e mm) : mm = m ∧ e.pc = m.pc := by
  unfold Machine.push at h
  split at h
  · injection h with h1 h2
    exact ⟨h2.symm, by rw [← h1]⟩
  · split at h <;> exact MRes.noConfusion h

/-- `Machine::pop` mutates nothing when it returns an error, and the error
carries the current `pc`. -/
theorem Machine.pop_err_eq {m mm : Machine} {e : MachineError}
    (h : m.pop = .err e mm) : mm = m ∧ e.pc = m.pc := by
  unfold Machine.pop at h
  split at h
  · injection h with h1 h2
    exact ⟨h2.symm, by rw [← h1]⟩
  · split at h <;> exact MRes.noConfusion h

/-- `Machine::push_frame` mutates nothing when it returns an error. -/
theorem Machine.push_frame_err_eq {m mm : Machine} {a : Nat} {e : MachineError}
    (h : m.push_frame a = .err e mm) : mm = m ∧ e.pc = m.pc := by
  unfold Machine.push_frame at h
  split at h
  · injection h with h1 h2
    exact ⟨h2.symm, by rw [← h1]⟩
  · split at h <;> exact MRes.noConfusion h

/-- `Machine::pop_frame` mutates nothing when it returns an error. -/
theorem Machine.pop_frame_err_eq {m mm : Machine} {e : MachineError}
    (h : m.pop_frame = .err e mm) : mm = m ∧ e.pc = m.pc := by
  unfold Machine.pop_frame at h
  split at h
  · injection h with h1 h2
    exact ⟨h2.symm, by rw [← h1]⟩
  · split at h <;> exact MRes.noConfusion h

/-- C10.  Failing instructions are atomic: whenever `execute_instruction`
returns a structured `MachineError` (as opposed to succeeding or panicking),
the machine — every register and both stacks — is exactly as it was before
the call, and the error's `pc` field is that unchanged `pc`.  (Every error
return in the source happens inside a guard that fires before any state is
mutated.) -/
theorem execute_instruction_error_atomic :
    ∀ (m : Machine) (i : Instruction) (e : MachineError) (m' : Machine),
      m.execute_instruction i = .err e m' → m' = m ∧ e.pc = m.pc := by
  intro m i e m' h
  cases i <;> simp only [Machine.execute_instruction] at h
  case Halt => exact MRes.noConfusion h
  case Noop => exact MRes.noConfusion h
  case LoadImmediate n => exact MRes.noConfusion h
  case Push =>
    split at h
    · exact MRes.noConfusion h
    · rename_i e2 mm heq
      injection h with h1 h2
      subst h1; subst h2
      exact Machine.push_err_eq heq
    · exact MRes.noConfusion h
  case Dup =>
    split at h
    · split at h
      · exact MRes.noConfusion h
      · rename_i e2 mm heq
        injection h with h1 h2
        subst h1; subst h2
        exact Machine.push_err_eq heq
      · exact MRes.noConfusion h
    · exact MRes.noConfusion h
  case Swap =>
    split at h
    · split at h
      · exact MRes.noConfusion h
      · split at h
        · exact MRes.noConfusion h
        · exact MRes.noConfusion h
    · exact MRes.noConfusion h
  case LoadTop =>
    split at h
    · exact MRes.noConfusion h
    · exact MRes.noConfusion h
  case Over =>
    split at h
    · exact MRes.noConfusion h
    · split at h
      · exact MRes.noConfusion h
      · exact MRes.noConfusion h
  case Inc => exact MRes.noConfusion h
  case Dec => exact MRes.noConfusion h
  case Div =>
    split at h
    · split at h
      · exact MRes.noConfusion h
      · split at h
        · exact MRes.noConfusion h
        · exact MRes.noConfusion h
    · rename_i e2 mm heq
      injection h with h1 h2
      subst h1; subst h2
      exact Machine.pop_err_eq heq
    · exact MRes.noConfusion h
  case Inv => exact MRes.noConfusion h
  case Jmp a => exact MRes.noConfusion h
  case JumpIfZero a => split at h <;> exact MRes.noConfusion h
  case JumpIfNotZero a => split at h <;> exact MRes.noConfusion h
  case Call a =>
    split at h
    · exact MRes.noConfusion h
    · rename_i e2 mm heq
      injection h with h1 h2
      subst h1; subst h2
      exact Machine.push_frame_err_eq heq
    · exact MRes.noConfusion h
  case Ret =>
    split at h
    · exact MRes.noConfusion h
    · rename_i e2 mm heq
      injection h with h1 h2
      subst h1; subst h2
      exact Machine.pop_frame_err_eq heq
    · exact MRes.noConfusion h
  all_goals
    split at h
    · exact MRes.noConfusion h
    · rename_i e2 mm heq
      injection h with h1 h2
      subst h1; subst h2
      exact Machine.pop_err_eq heq
    · exact MRes.noConfusion h

/-- C10, witness: instantiating the atomicity theorem at a fresh machine
executing `Pop`, which fails with `StackUnderflow` at `pc = 0`. -/
theorem execute_instruction_error_atomic_witness :
    Machine.new = Machine.new ∧
      (MachineError.mk .StackUnderflow 0).pc = Machine.new.pc :=
  execute_instruction_error_atomic Machine.new .Pop
    { kind := .StackUnderflow, pc := 0 } Machine.new (by rfl)

/-! ## Label-resolution correctness (claim C3)

The assembler registers, in `Fix.to_fix`, exactly the instruction slots whose
address operand referenced the label via `@name` (`parse_address` appends the
current `inst_count` on *every* `@` reference, forward or backward), and the
label-definition arm of `code_from_str` is the only place that sets
`Fix.address` — to the next-instruction address current at the definition
line.  The theorems below show the scan keeps the fixup bookkeeping
well-formed (registered slots are below `inst_count`, and no slot is
registered under two labels), and that the resolution pass therefore leaves
every referencing slot holding its label's bound address. -/

/-- The address operand of an address-bearing instruction. -/
def instAddr? : Instruction → Option Nat
  | .Jmp a => some a
  | .JumpIfZero a => some a
  | .JumpIfNotZero a => some a
  | .Call a => some a
  | _ => none

/-- Two label entries register disjoint fixup slots. -/
def disjFix (p q : String × Fix) : Prop :=
  ∀ x ∈ p.2.to_fix, x ∉ q.2.to_fix

/-- Well-formedness of the fixup table at instruction counter `c`: label
names are distinct, every registered slot is below `c`, and no slot is
registered under two entries. -/
def InvF (fixes : Fixes) (c : Nat) : Prop :=
  (fixes.map Prod.fst).Nodup ∧
  (∀ p ∈ fixes, ∀ s ∈ p.2.to_fix, s < c) ∧
  fixes.Pairwise disjFix

theorem InvF.mono {fixes : Fixes} {c c' : Nat} (h : InvF fixes c) (hc : c ≤ c') :
    InvF fixes c' :=
  ⟨h.1, fun p hp s hs => lt_of_lt_of_le (h.2.1 p hp s hs) hc, h.2.2⟩

theorem lookupFix_none_not_mem {fixes : Fixes} {n : String}
    (h : lookupFix fixes n = none) : n ∉ fixes.map Prod.fst := by
  induction fixes with
  | nil => simp
  | cons p rest ih =>
    rw [lookupFix] at h
    split at h
    · exact Option.noConfusion h
    · rename_i hne
      simp only [List.map_cons, List.mem_cons]
      rintro (rfl | hmem)
      · exact hne rfl
      · exact ih h hmem

theorem lookupFix_split {fixes : Fixes} {n : String} {f : Fix}
    (h : lookupFix fixes n = some f) :
    ∃ pre post, fixes = pre ++ (n, f) :: post ∧ ∀ q ∈ pre, q.1 ≠ n := by
  induction fixes with
  | nil => exact Option.noConfusion h
  | cons p rest ih =>
    rw [lookupFix] at h
    split at h
    · rename_i heq
      injection h with h1
      refine ⟨[], rest, ?_, by simp⟩
      obtain ⟨p1, p2⟩ := p
      simp only at heq
      subst heq; subst h1
      simp
    · rename_i hne
      obtain ⟨pre, post, hfx, hpre⟩ := ih h
      refine ⟨p :: pre, post, by rw [List.cons_append, hfx], ?_⟩
      intro q hq
      rcases List.mem_cons.mp hq with rfl | hq'
      · exact hne
      · exact hpre q hq'

theorem updateFix_of_split {n : String} {f g : Fix} :
    ∀ (pre post : Fixes), (∀ q ∈ pre, q.1 ≠ n) →
      updateFix (pre ++ (n, f) :: post) n g = pre ++ (n, g) :: post := by
  intro pre
  induction pre with
  | nil =>
    intro post _
    simp [updateFix]
  | cons p pre' ih =>
    intro post hpre
    rw [List.cons_append, updateFix]
    rw [if_neg (hpre p (List.mem_cons_self p pre'))]
    rw [ih post (fun q hq => hpre q (List.mem_cons_of_mem p hq)), List.cons_append]

/-- `parse_address` keeps the fixup table well-formed; the only slot it can
register is the current `inst_count`. -/
theorem parse_address_invF {op : List Char} {ln c : Nat} {fixes : Fixes}
    {a : Nat} {fixes' : Fixes}
    (h : parse_address op ln c fixes = .ok (a, fixes'))
    (hinv : InvF fixes c) : InvF fixes' (c + 1) := by
  obtain ⟨hkeys, hslots, hdisj⟩ := hinv
  unfold parse_address at h
  split at h
  · -- `@label` reference
    dsimp only at h
    split at h
    · -- fresh label: append a new entry with to_fix = [c]
      rename_i hlook
      injection h with h1
      injection h1 with _ h2
      subst h2
      refine ⟨?_, ?_, ?_⟩
      · rw [List.map_append, List.nodup_append]
        refine ⟨hkeys, by simp, ?_⟩
        intro x hx
        simp only [List.map_cons, List.map_nil, List.mem_singleton]
        rintro rfl
        exact lookupFix_none_not_mem hlook hx
      · intro p hp s hs
        rcases List.mem_append.mp hp with hp' | hp'
        · exact lt_of_lt_of_le (hslots p hp' s hs) (Nat.le_succ c)
        · rcases List.mem_singleton.mp hp' with rfl
          simp only [List.mem_singleton] at hs
          omega
      · rw [List.pairwise_append]
        refine ⟨hdisj, by simp [disjFix], ?_⟩
        intro p hp q hq
        rcases List.mem_singleton.mp hq with rfl
        intro x hx
        simp only [List.mem_singleton]
        have := hslots p hp x hx
        omega
    · -- known label: append slot c to its fixup list
      rename_i fx hlook
      injection h with h1
      injection h1 with _ h2
      subst h2
      obtain ⟨pre, post, hfx, hpre⟩ := lookupFix_split hlook
      subst hfx
      rw [updateFix_of_split pre post hpre]
      rw [List.pairwise_append] at hdisj
      obtain ⟨hd1, hd2, hd3⟩ := hdisj
      rw [List.pairwise_cons] at hd2
      obtain ⟨hd2a, hd2b⟩ := hd2
      refine ⟨?_, ?_, ?_⟩
      · simpa using hkeys
      · intro p hp s hs
        rcases List.mem_append.mp hp with hp' | hp'
        · exact lt_of_lt_of_le
            (hslots p (List.mem_append_left _ hp') s hs) (Nat.le_succ c)
        · rcases List.mem_cons.mp hp' with rfl | hp''
          · simp only [List.mem_append, List.mem_singleton] at hs
            rcases hs with hs' | rfl
            · exact lt_of_lt_of_le
                (hslots ⟨_, fx⟩
                  (List.mem_append_right _ (List.mem_cons_self _ _)) s hs')
                (Nat.le_succ c)
            · omega
          · exact lt_of_lt_of_le
              (hslots p
                (List.mem_append_right _ (List.mem_cons_of_mem _ hp'')) s hs)
              (Nat.le_succ c)
      · rw [List.pairwise_append]
        refine ⟨hd1, ?_, ?_⟩
        · rw [List.pairwise_cons]
          refine ⟨?_, hd2b⟩
          intro q hq x hx
          simp only [List.mem_append, List.mem_singleton] at hx
          rcases hx with hx' | rfl
          · exact hd2a q hq x hx'
          · intro hc
            have := hslots q
              (List.mem_append_right _ (List.mem_cons_of_mem _ hq)) x hc
            omega
        · intro p hp q hq
          rcases List.mem_cons.mp hq with rfl | hq'
          · intro x hx
            simp only [List.mem_append, List.mem_singleton]
            have hold := hd3 p hp ⟨_, fx⟩ (List.mem_cons_self _ _) x hx
            push_neg
            refine ⟨hold, ?_⟩
            intro rfl_eq
            subst rfl_eq
            have := hslots p (List.mem_append_left _ hp) x hx
            omega
          · exact hd3 p hp q (List.mem_cons_of_mem _ hq')
  · -- bare numeric address: fixup table unchanged
    split at h
    · injection h with h1
      injection h1 with _ h2
      subst h2
      exact InvF.mono ⟨hkeys, hslots, hdisj⟩ (Nat.le_succ c)
    · exact Except.noConfusion h

/-- `bindLabel` changes only an entry's `address`; the fixup bookkeeping
stays well-formed at the same counter. -/
theorem bindLabel_invF {fixes : Fixes} {label : String} {c c' : Nat}
    (hinv : InvF fixes c) : InvF (bindLabel fixes label c') c := by
  obtain ⟨hkeys, hslots, hdisj⟩ := hinv
  unfold bindLabel
  split
  · rename_i fx hlook
    obtain ⟨pre, post, hfx, hpre⟩ := lookupFix_split hlook
    subst hfx
    rw [updateFix_of_split pre post hpre]
    rw [List.pairwise_append] at hdisj
    obtain ⟨hd1, hd2, hd3⟩ := hdisj
    rw [List.pairwise_cons] at hd2
    obtain ⟨hd2a, hd2b⟩ := hd2
    refine ⟨by simpa using hkeys, ?_, ?_⟩
    · intro p hp s hs
      rcases List.mem_append.mp hp with hp' | hp'
      · exact hslots p (List.mem_append_left _ hp') s hs
      · rcases List.mem_cons.mp hp' with rfl | hp''
        · exact hslots (label, fx)
            (List.mem_append_right _ (List.mem_cons_self _ _)) s hs
        · exact hslots p
            (List.mem_append_right _ (List.mem_cons_of_mem _ hp'')) s hs
    · rw [List.pairwise_append]
      refine ⟨hd1, ?_, ?_⟩
      · rw [List.pairwise_cons]
        exact ⟨fun q hq x hx => hd2a q hq x hx, hd2b⟩
      · intro p hp q hq
        rcases List.mem_cons.mp hq with rfl | hq'
        · exact fun x hx => hd3 p hp (label, fx) (List.mem_cons_self _ _) x hx
        · exact hd3 p hp q (List.mem_cons_of_mem _ hq')
  · rename_i hlook
    refine ⟨?_, ?_, ?_⟩
    · rw [List.map_append, List.nodup_append]
      refine ⟨hkeys, by simp, ?_⟩
      intro x hx
      simp only [List.map_cons, List.map_nil, List.mem_singleton]
      rintro rfl
      exact lookupFix_none_not_mem hlook hx
    · intro p hp s hs
      rcases List.mem_append.mp hp with hp' | hp'
      · exact hslots p hp' s hs
      · rcases List.mem_singleton.mp hp' with rfl
        simp at hs
    · rw [List.pairwise_append]
      exact ⟨hdisj, by simp [disjFix], fun p hp q hq => by
        rcases List.mem_singleton.mp hq with rfl
        intro x hx
        simp⟩

/-- `loadArm` never skips its token. -/
theorem loadArm_ne_skip {s : List Char} {t : Tokenizer} {fixes : Fixes}
    {t2 : Tokenizer} {f2 : Fixes} : loadArm s t fixes ≠ .skip t2 f2 := by
  intro h
  unfold loadArm at h
  dsimp only at h
  split at h
  · exact ClassifyRes.noConfusion h
  · split at h <;> exact ClassifyRes.noConfusion h

/-- When `loadArm` emits an instruction, the fixup table is untouched. -/
theorem loadArm_inst_fixes {s : List Char} {t : Tokenizer} {fixes : Fixes}
    {i : Instruction} {t2 : Tokenizer} {f2 : Fixes}
    (h : loadArm s t fixes = .inst i t2 f2) : f2 = fixes := by
  unfold loadArm at h
  dsimp only at h
  split at h
  · exact ClassifyRes.noConfusion h
  · split at h
    · injection h with h1 h2 h3
      exact h3.symm
    · exact ClassifyRes.noConfusion h

/-- `addrArm` never skips its token. -/
theorem addrArm_ne_skip {mk : Nat → Instruction} {s : List Char}
    {t : Tokenizer} {c : Nat} {fixes : Fixes} {t2 : Tokenizer} {f2 : Fixes} :
    addrArm mk s t c fixes ≠ .skip t2 f2 := by
  intro h
  unfold addrArm at h
  dsimp only at h
  split at h
  · exact ClassifyRes.noConfusion h
  · split at h <;> exact ClassifyRes.noConfusion h

/-- When `addrArm` emits an instruction, the fixup table stays well-formed
at the incremented counter (by `parse_address_invF`). -/
theorem addrArm_invF {mk : Nat → Instruction} {s : List Char} {t : Tokenizer}
    {c : Nat} {fixes : Fixes} {i : Instruction} {t2 : Tokenizer} {f2 : Fixes}
    (h : addrArm mk s t c fixes = .inst i t2 f2) (hinv : InvF fixes c) :
    InvF f2 (c + 1) := by
  unfold addrArm at h
  dsimp only at h
  split at h
  · exact ClassifyRes.noConfusion h
  · split at h
    · rename_i a fixes2 heq
      injection h with h1 h2 h3
      subst h3
      exact parse_address_invF heq hinv
    · exact ClassifyRes.noConfusion h

/-- A `continue`ing token (empty token or label definition) keeps the fixup
table well-formed at the same counter. -/
theorem classifyCmd_skip_invF {s : List Char} {t : Tokenizer} {cmd : List Char}
    {c : Nat} {fixes : Fixes} {t2 : Tokenizer} {f2 : Fixes}
    (h : classifyCmd s t cmd c fixes = .skip t2 f2) (hinv : InvF fixes c) :
    InvF f2 c := by
  delta classifyCmd at h
  by_cases hc1 : String.mk cmd = ""
  · rw [if_pos hc1] at h
    injection h with ht hf
    subst hf
    exact hinv
  rw [if_neg hc1] at h
  by_cases hc2 : String.mk cmd = "halt"
  · rw [if_pos hc2] at h
    exact ClassifyRes.noConfusion h
  rw [if_neg hc2] at h
  by_cases hc3 : String.mk cmd = "noop"
  · rw [if_pos hc3] at h
    exact ClassifyRes.noConfusion h
  rw [if_neg hc3] at h
  by_cases hc4 : String.mk cmd = "load"
  · rw [if_pos hc4] at h
    exact absurd h loadArm_ne_skip
  rw [if_neg hc4] at h
  by_cases hc5 : String.mk cmd = "push"
  · rw [if_pos hc5] at h
    exact ClassifyRes.noConfusion h
  rw [if_neg hc5] at h
  by_cases hc6 : String.mk cmd = "pop"
  · rw [if_pos hc6] at h
    exact ClassifyRes.noConfusion h
  rw [if_neg hc6] at h
  by_cases hc7 : String.mk cmd = "dup"
  · rw [if_pos hc7] at h
    exact ClassifyRes.noConfusion h
  rw [if_neg hc7] at h
  by_cases hc8 : String.mk cmd = "swap"
  · rw [if_pos hc8] at h
    exact ClassifyRes.noConfusion h
  rw [if_neg hc8] at h
  by_cases hc9 : String.mk cmd = "ldt"
  · rw [if_pos hc9] at h
    exact ClassifyRes.noConfusion h
  rw [if_neg hc9] at h
  by_cases hc10 : String.mk cmd = "over"
  · rw [if_pos hc10] at h
    exact ClassifyRes.noConfusion h
  rw [if_neg hc10] at h
  by_cases hc11 : String.mk cmd = "inc"
  · rw [if_pos hc11] at h
    exact ClassifyRes.noConfusion h
  rw [if_neg hc11] at h
  by_cases hc12 : String.mk cmd = "dec"
  · rw [if_pos hc12] at h
    exact ClassifyRes.noConfusion h
  rw [if_neg hc12] at h
  by_cases hc13 : String.mk cmd = "add"
  · rw [if_pos hc13] at h
    exact ClassifyRes.noConfusion h
  rw [if_neg hc13] at h
  by_cases hc14 : String.mk cmd = "sub"
  · rw [if_pos hc14] at h
    exact ClassifyRes.noConfusion h
  rw [if_neg hc14] at h
  by_cases hc15 : String.mk cmd = "mul"
  · rw [if_pos hc15] at h
    exact ClassifyRes.noConfusion h
  rw [if_neg hc15] at h
  by_cases hc16 : String.mk cmd = "div"
  · rw [if_pos hc16] at h
    exact ClassifyRes.noConfusion h
  rw [if_neg hc16] at h
  by_cases hc17 : String.mk cmd = "eq"
  · rw [if_pos hc17] at h
    exact ClassifyRes.noConfusion h
  rw [if_neg hc17] at h
  by_cases hc18 : String.mk cmd = "neq"
  · rw [if_pos hc18] at h
    exact ClassifyRes.noConfusion h
  rw [if_neg hc18] at h
  by_cases hc19 : String.mk cmd = "lt"
  · rw [if_pos hc19] at h
    exact ClassifyRes.noConfusion h
  rw [if_neg hc19] at h
  by_cases hc20 : String.mk cmd = "lte"
  · rw [if_pos hc20] at h
    exact ClassifyRes.noConfusion h
  rw [if_neg hc20] at h
  by_cases hc21 : String.mk cmd = "gt"
  · rw [if_pos hc21] at h
    exact ClassifyRes.noConfusion h
  rw [if_neg hc21] at h
  by_cases hc22 : String.mk cmd = "gte"
  · rw [if_pos hc22] at h
    exact ClassifyRes.noConfusion h
  rw [if_neg hc22] at h
  by_cases hc23 : String.mk cmd = "inv"
  · rw [if_pos hc23] at h
    exact ClassifyRes.noConfusion h
  rw [if_neg hc23] at h
  by_cases hc24 : String.mk cmd = "jmp"
  · rw [if_pos hc24] at h
    exact absurd h addrArm_ne_skip
  rw [if_neg hc24] at h
  by_cases hc25 : String.mk cmd = "jz"
  · rw [if_pos hc25] at h
    exact absurd h addrArm_ne_skip
  rw [if_neg hc25] at h
  by_cases hc26 : String.mk cmd = "jnz"
  · rw [if_pos hc26] at h
    exact absurd h addrArm_ne_skip
  rw [if_neg hc26] at h
  by_cases hc27 : String.mk cmd = "call"
  · rw [if_pos hc27] at h
    exact absurd h addrArm_ne_skip
  rw [if_neg hc27] at h
  by_cases hc28 : String.mk cmd = "ret"
  · rw [if_pos hc28] at h
    exact ClassifyRes.noConfusion h
  rw [if_neg hc28] at h
  by_cases hlab : cmd ≠ [] ∧ cmd.getLast? = some ':'
  · rw [if_pos hlab] at h
    injection h with ht hf
    subst hf
    exact bindLabel_invF hinv
  rw [if_neg hlab] at h
  exact ClassifyRes.noConfusion h

/-- An instruction-emitting token keeps the fixup table well-formed at the
incremented counter. -/
theorem classifyCmd_inst_invF {s : List Char} {t : Tokenizer} {cmd : List Char}
    {c : Nat} {fixes : Fixes} {i : Instruction} {t2 : Tokenizer} {f2 : Fixes}
    (h : classifyCmd s t cmd c fixes = .inst i t2 f2) (hinv : InvF fixes c) :
    InvF f2 (c + 1) := by
  delta classifyCmd at h
  by_cases hc1 : String.mk cmd = ""
  · rw [if_pos hc1] at h
    exact ClassifyRes.noConfusion h
  rw [if_neg hc1] at h
  by_cases hc2 : String.mk cmd = "halt"
  · rw [if_pos hc2] at h
    injection h with hi ht hf
    subst hf
    exact hinv.mono (Nat.le_succ c)
  rw [if_neg hc2] at h
  by_cases hc3 : String.mk cmd = "noop"
  · rw [if_pos hc3] at h
    injection h with hi ht hf
    subst hf
    exact hinv.mono (Nat.le_succ c)
  rw [if_neg hc3] at h
  by_cases hc4 : String.mk cmd = "load"
  · rw [if_pos hc4] at h
    rw [loadArm_inst_fixes h]
    exact hinv.mono (Nat.le_succ c)
  rw [if_neg hc4] at h
  by_cases hc5 : String.mk cmd = "push"
  · rw [if_pos hc5] at h
    injection h with hi ht hf
    subst hf
    exact hinv.mono (Nat.le_succ c)
  rw [if_neg hc5] at h
  by_cases hc6 : String.mk cmd = "pop"
  · rw [if_pos hc6] at h
    injection h with hi ht hf
    subst hf
    exact hinv.mono (Nat.le_succ c)
  rw [if_neg hc6] at h
  by_cases hc7 : String.mk cmd = "dup"
  · rw [if_pos hc7] at h
    injection h with hi ht hf
    subst hf
    exact hinv.mono (Nat.le_succ c)
  rw [if_neg hc7] at h
  by_cases hc8 : String.mk cmd = "swap"
  · rw [if_pos hc8] at h
    injection h with hi ht hf
    subst hf
    exact hinv.mono (Nat.le_succ c)
  rw [if_neg hc8] at h
  by_cases hc9 : String.mk cmd = "ldt"
  · rw [if_pos hc9] at h
    injection h with hi ht hf
    subst hf
    exact hinv.mono (Nat.le_succ c)
  rw [if_neg hc9] at h
  by_cases hc10 : String.mk cmd = "over"
  · rw [if_pos hc10] at h
    injection h with hi ht hf
    subst hf
    exact hinv.mono (Nat.le_succ c)
  rw [if_neg hc10] at h
  by_cases hc11 : String.mk cmd = "inc"
  · rw [if_pos hc11] at h
    injection h with hi ht hf
    subst hf
    exact hinv.mono (Nat.le_succ c)
  rw [if_neg hc11] at h
  by_cases hc12 : String.mk cmd = "dec"
  · rw [if_pos hc12] at h
    injection h with hi ht hf
    subst hf
    exact hinv.mono (Nat.le_succ c)
  rw [if_neg hc12] at h
  by_cases hc13 : String.mk cmd = "add"
  · rw [if_pos hc13] at h
    injection h with hi ht hf
    subst hf
    exact hinv.mono (Nat.le_succ c)
  rw [if_neg hc13] at h
  by_cases hc14 : String.mk cmd = "sub"
  · rw [if_pos hc14] at h
    injection h with hi ht hf
    subst hf
    exact hinv.mono (Nat.le_succ c)
  rw [if_neg hc14] at h
  by_cases hc15 : String.mk cmd = "mul"
  · rw [if_pos hc15] at h
    injection h with hi ht hf
    subst hf
    exact hinv.mono (Nat.le_succ c)
  rw [if_neg hc15] at h
  by_cases hc16 : String.mk cmd = "div"
  · rw [if_pos hc16] at h
    injection h with hi ht hf
    subst hf
    exact hinv.mono (Nat.le_succ c)
  rw [if_neg hc16] at h
  by_cases hc17 : String.mk cmd = "eq"
  · rw [if_pos hc17] at h
    injection h with hi ht hf
    subst hf
    exact hinv.mono (Nat.le_succ c)
  rw [if_neg hc17] at h
  by_cases hc18 : String.mk cmd = "neq"
  · rw [if_pos hc18] at h
    injection h with hi ht hf
    subst hf
    exact hinv.mono (Nat.le_succ c)
  rw [if_neg hc18] at h
  by_cases hc19 : String.mk cmd = "lt"
  · rw [if_pos hc19] at h
    injection h with hi ht hf
    subst hf
    exact hinv.mono (Nat.le_succ c)
  rw [if_neg hc19] at h
  by_cases hc20 : String.mk cmd = "lte"
  · rw [if_pos hc20] at h
    injection h with hi ht hf
    subst hf
    exact hinv.mono (Nat.le_succ c)
  rw [if_neg hc20] at h
  by_cases hc21 : String.mk cmd = "gt"
  · rw [if_pos hc21] at h
    injection h with hi ht hf
    subst hf
    exact hinv.mono (Nat.le_succ c)
  rw [if_neg hc21] at h
  by_cases hc22 : String.mk cmd = "gte"
  · rw [if_pos hc22] at h
    injection h with hi ht hf
    subst hf
    exact hinv.mono (Nat.le_succ c)
  rw [if_neg hc22] at h
  by_cases hc23 : String.mk cmd = "inv"
  · rw [if_pos hc23] at h
    injection h with hi ht hf
    subst hf
    exact hinv.mono (Nat.le_succ c)
  rw [if_neg hc23] at h
  by_cases hc24 : String.mk cmd = "jmp"
  · rw [if_pos hc24] at h
    exact addrArm_invF h hinv
  rw [if_neg hc24] at h
  by_cases hc25 : String.mk cmd = "jz"
  · rw [if_pos hc25] at h
    exact addrArm_invF h hinv
  rw [if_neg hc25] at h
  by_cases hc26 : String.mk cmd = "jnz"
  · rw [if_pos hc26] at h
    exact addrArm_invF h hinv
  rw [if_neg hc26] at h
  by_cases hc27 : String.mk cmd = "call"
  · rw [if_pos hc27] at h
    exact addrArm_invF h hinv
  rw [if_neg hc27] at h
  by_cases hc28 : String.mk cmd = "ret"
  · rw [if_pos hc28] at h
    injection h with hi ht hf
    subst hf
    exact hinv.mono (Nat.le_succ c)
  rw [if_neg hc28] at h
  by_cases hlab : cmd ≠ [] ∧ cmd.getLast? = some ':'
  · rw [if_pos hlab] at h
    exact ClassifyRes.noConfusion h
  rw [if_neg hlab] at h
  exact ClassifyRes.noConfusion h

/-- The scan of `code_from_str` preserves well-formedness of the fixup
table; it also never changes the destination buffer's length. -/
theorem scan_ok_invF (s : List Char) :
    ∀ (fuel : Nat) (st st' : AsmSt), scan s fuel st = some (.ok st') →
      InvF st.fixes st.inst_count → st.dst.length ≤ 65535 →
      InvF st'.fixes st'.inst_count ∧ st'.dst.length = st.dst.length := by
  intro fuel
  induction fuel with
  | zero =>
    intro st st' h _ _
    exact Option.noConfusion h
  | succ fuel ih =>
    intro st st' h hinv hcap
    simp only [scan] at h
    split at h
    · split at h
      · exact ih { st with t := consume_comment s st.t } st' h hinv hcap
      · split at h
        · split at h
          · injection h with h1
            exact ScanRes.noConfusion h1
          · split at h
            · rename_i t2 fixes2 hcl
              exact ih { st with t := t2, fixes := fixes2 } st' h
                (classifyCmd_skip_invF hcl hinv) hcap
            · rename_i i t2 fixes2 hcl
              split at h
              · rename_i hlt2
                have hwrap : incWrap st.inst_count = st.inst_count + 1 := by
                  unfold incWrap
                  omega
                have hres := ih _ _ h
                  (by
                    show InvF fixes2 (incWrap st.inst_count)
                    rw [hwrap]
                    exact classifyCmd_inst_invF hcl hinv)
                  (by
                    show (st.dst.set st.inst_count i).length ≤ 65535
                    rw [List.length_set]
                    exact hcap)
                refine ⟨hres.1, ?_⟩
                rw [hres.2]
                exact List.length_set ..
              · injection h with h1
                exact ScanRes.noConfusion h1
            · injection h with h1
              exact ScanRes.noConfusion h1
            · injection h with h1
              exact ScanRes.noConfusion h1
        · exact ih
            { st with t := { st.t with char_index := st.t.char_index + 1 } }
            st' h hinv hcap
    · injection h with h1
      injection h1 with h2
      subst h2
      exact ⟨hinv, rfl⟩

/-- A successful `patchSlot` leaves the patched slot holding the target
address. -/
theorem patchSlot_self {dst : List Instruction} {slot a : Nat}
    {d1 : List Instruction} (h : patchSlot dst slot a = some d1) :
    (d1.get? slot).bind instAddr? = some a := by
  unfold patchSlot at h
  split at h <;>
    first
      | exact Option.noConfusion h
      | (rename_i a0 heq
         injection h with h1
         subst h1
         have hlen : slot < dst.length := (List.get?_eq_some.mp heq).choose
         rw [List.get?_eq_getElem?, List.getElem?_set_eq_of_lt _ hlen]
         rfl)

/-- `patchSlot` touches no other slot. -/
theorem patchSlot_preserve {dst : List Instruction} {slot a : Nat}
    {d1 : List Instruction} (h : patchSlot dst slot a = some d1) :
    ∀ j, j ≠ slot → d1.get? j = dst.get? j := by
  intro j hj
  unfold patchSlot at h
  split at h <;>
    first
      | exact Option.noConfusion h
      | (rename_i a0 heq
         injection h with h1
         subst h1
         rw [List.get?_eq_getElem?, List.get?_eq_getElem?]
         exact List.getElem?_set_ne (Ne.symm hj))

/-- The inner patch loop touches only the slots it is given. -/
theorem patchSlots_preserve :
    ∀ (slots : List Nat) (dst : List Instruction) (a : Nat)
      (d' : List Instruction), patchSlots dst a slots = some d' →
      ∀ j, j ∉ slots → d'.get? j = dst.get? j := by
  intro slots
  induction slots with
  | nil =>
    intro dst a d' h j _
    simp only [patchSlots] at h
    injection h with h1
    rw [h1]
  | cons sl rest ih =>
    intro dst a d' h j hj
    have hj' : j ≠ sl ∧ j ∉ rest := by
      simp only [List.mem_cons, not_or] at hj
      exact hj
    simp only [patchSlots] at h
    split at h
    · rename_i d1 heq
      rw [ih d1 a d' h j hj'.2]
      exact patchSlot_preserve heq j hj'.1
    · exact Option.noConfusion h

/-- After a successful patch loop, every listed slot holds the target
address. -/
theorem patchSlots_mem :
    ∀ (slots : List Nat) (dst : List Instruction) (a : Nat)
      (d' : List Instruction), patchSlots dst a slots = some d' →
      ∀ s ∈ slots, (d'.get? s).bind instAddr? = some a := by
  intro slots
  induction slots with
  | nil =>
    intro dst a d' _ s hs
    simp at hs
  | cons sl rest ih =>
    intro dst a d' h s hs
    simp only [patchSlots] at h
    split at h
    · rename_i d1 heq
      rcases List.mem_cons.mp hs with rfl | hs'
      · by_cases hmem : s ∈ rest
        · exact ih d1 a d' h s hmem
        · rw [patchSlots_preserve rest d1 a d' h s hmem]
          exact patchSlot_self heq
      · exact ih d1 a d' h s hs'
    · exact Option.noConfusion h

/-- The resolution pass touches only registered fixup slots. -/
theorem resolveFixes_preserve :
    ∀ (fixes : Fixes) (dst d' : List Instruction),
      resolveFixes fixes dst = some d' →
      ∀ j, (∀ q ∈ fixes, j ∉ q.2.to_fix) → d'.get? j = dst.get? j := by
  intro fixes
  induction fixes with
  | nil =>
    intro dst d' h j _
    simp only [resolveFixes] at h
    injection h with h1
    rw [h1]
  | cons p rest ih =>
    intro dst d' h j hj
    obtain ⟨pn, pf⟩ := p
    simp only [resolveFixes] at h
    split at h
    · exact Option.noConfusion h
    · rename_i a heq
      split at h
      · rename_i d1 heq1
        rw [ih d1 d' h j (fun q hq => hj q (List.mem_cons_of_mem _ hq))]
        exact patchSlots_preserve pf.to_fix dst a d1 heq1 j
          (hj (pn, pf) (List.mem_cons_self _ _))
      · exact Option.noConfusion h

/-- After a successful resolution pass, every slot registered under a
resolved label holds that label's bound address (using that no slot is
registered under two labels). -/
theorem resolveFixes_mem :
    ∀ (pre : Fixes) (lbl : String) (f : Fix) (post : Fixes)
      (dst d' : List Instruction),
      resolveFixes (pre ++ (lbl, f) :: post) dst = some d' →
      (pre ++ (lbl, f) :: post).Pairwise disjFix →
      ∀ a, f.address = some a →
      ∀ s ∈ f.to_fix, (d'.get? s).bind instAddr? = some a := by
  intro pre
  induction pre with
  | nil =>
    intro lbl f post dst d' h hdisj a ha s hs
    simp only [List.nil_append] at h hdisj
    simp only [resolveFixes, ha] at h
    split at h
    · rename_i d1 heq
      have hdisj' := List.pairwise_cons.mp hdisj
      rw [resolveFixes_preserve post d1 d' h s
        (fun q hq => hdisj'.1 q hq s hs)]
      exact patchSlots_mem f.to_fix dst a d1 heq s hs
    · exact Option.noConfusion h
  | cons p pre' ih =>
    intro lbl f post dst d' h hdisj a ha s hs
    obtain ⟨pn, pf⟩ := p
    simp only [List.cons_append] at h hdisj
    simp only [resolveFixes] at h
    split at h
    · exact Option.noConfusion h
    · rename_i a0 heq0
      split at h
      · rename_i d1 heq1
        exact ih lbl f post d1 d' h (List.pairwise_cons.mp hdisj).2 a ha s hs
      · exact Option.noConfusion h

/-- C3.  For every source program that assembles successfully (the scan
returns a final state and the resolution pass succeeds, which is exactly
`code_from_str` returning `Ok`; the destination capacity is within the
16-bit address space, as `ProgramAddress` is `u16`), and for every label
(`lookupFix` finds its entry) with a bound definition address `a`
(`Fix.address`, set only by the label-definition arm to the
next-instruction address current at the definition line), every instruction
slot that referenced the label via `@name` (`Fix.to_fix`, to which
`parse_address` appends the referencing slot on every `@` reference,
forward or backward) ends up holding address operand `a` in the returned
buffer.  In particular (second conjunct) assembling and running
`jmp @skip / load 99 / skip: load 1 / halt` ends with `acc = 1` (and
`sp = 0`, `pc = 3`): the forward jump skips the intervening `load 99`. -/
theorem label_resolution_correct :
    (∀ (fuel : Nat) (src : String) (dst0 : List Instruction),
      dst0.length ≤ 65535 →
      ∀ st : AsmSt,
        scan src.toList fuel
          { t := { char_index := 0, last_token := 0, line_num := 0 },
            inst_count := 0, fixes := [], dst := dst0 } = some (.ok st) →
      ∀ dstF : List Instruction,
        resolveFixes st.fixes st.dst = some dstF →
      ∀ (lbl : String) (f : Fix), lookupFix st.fixes lbl = some f →
      ∀ a : Nat, f.address = some a →
      ∀ slot ∈ f.to_fix,
        code_from_str fuel src dst0 = some (.ok st.inst_count dstF) ∧
        (dstF.get? slot).bind instAddr? = some a) ∧
    runOutput (asmRun 100 50 "jmp @skip\nload 99\nskip: load 1\nhalt\n" 8)
      = some (1, 0, 3) := by
  constructor
  · intro fuel src dst0 hcap st hscan dstF hres lbl f hlook a ha slot hslot
    constructor
    · simp only [code_from_str, hscan, hres]
    · have hinv0 : InvF ([] : Fixes) 0 := ⟨by simp, by simp, List.Pairwise.nil⟩
      have hinv := scan_ok_invF src.toList fuel _ st hscan hinv0 hcap
      obtain ⟨pre, post, hsplit, _⟩ := lookupFix_split hlook
      have hres' : resolveFixes (pre ++ (lbl, f) :: post) st.dst = some dstF := by
        rw [← hsplit]
        exact hres
      have hdisj : (pre ++ (lbl, f) :: post).Pairwise disjFix := by
        rw [← hsplit]
        exact hinv.1.2.2
      exact resolveFixes_mem pre lbl f post st.dst dstF hres' hdisj a ha slot hslot
  · rfl

/-- C3, witness: the universal theorem instantiated on the spec's example
program `jmp @skip / load 99 / skip: load 1 / halt`: the scan registers
slot 0 as a forward reference to `skip`, binds `skip` to address 2, and the
resolved buffer holds `Jmp 2` at slot 0. -/
theorem label_resolution_correct_witness :
    code_from_str 100 "jmp @skip\nload 99\nskip: load 1\nhalt\n"
        (List.replicate 8 .Halt)
      = some (.ok 4 [.Jmp 2, .LoadImmediate 99, .LoadImmediate 1, .Halt,
                     .Halt, .Halt, .Halt, .Halt]) ∧
    (([Instruction.Jmp 2, .LoadImmediate 99, .LoadImmediate 1, .Halt,
       .Halt, .Halt, .Halt, .Halt].get? 0).bind instAddr?) = some 2 :=
  label_resolution_correct.1 100 "jmp @skip\nload 99\nskip: load 1\nhalt\n"
    (List.replicate 8 .Halt) (by decide)
    { t := { char_index := 36, last_token := 36, line_num := 4 },
      inst_count := 4,
      fixes := [("skip", { address := some 2, to_fix := [0] })],
      dst := [.Jmp 0, .LoadImmediate 99, .LoadImmediate 1, .Halt, .Halt,
              .Halt, .Halt, .Halt] }
    (by decide)
    [.Jmp 2, .LoadImmediate 99, .LoadImmediate 1, .Halt, .Halt, .Halt,
     .Halt, .Halt]
    (by decide) "skip" { address := some 2, to_fix := [0] } (by decide)
    2 (by decide) 0 (by decide)

end RMVM
